import Mathlib

/-!
Shallow embedding of the Go side-input state cache
(`sdks/go/pkg/beam/core/runtime/harness/statecache/statecache.go`).

Modelling conventions:
* Go maps (`cache`, `idsToTokens`, `validTokens`) become association lists
  (`List (key × value)`); map iteration order (used by `evictElement`,
  which ranges over the cache map) becomes the list order, standing for
  "some unspecified order".
* The `validTokens` counts are Go `int8`: we model them as `Int` with an
  explicit two's-complement wrap `wrap8` applied at every arithmetic step,
  so overflow behaves exactly as in Go.  Reading a missing key from a Go
  map yields the zero value `0`; `decrementTokenCount` relies on this and
  the model reproduces it with `(mapLookup ...).getD 0`.
* The metrics counters are Go `int64`; they only ever change by `+1`, so
  they are modelled as `Int` (their wrap point is unreachable for the
  properties considered here, which track single increments).
* `ReusableInput` values are opaque to the cache: the state is polymorphic
  in a value type `V` and the cache only stores and returns such values.
* The mutex serialises the public operations; a sequence of operations is
  modelled as a list of `Op` applied with `run`.
* `Init` writes the three maps and the capacity into the receiver; per its
  doc comment it "should only be called once", on the zero-value struct,
  whose metrics counters are all `0`, so the model has `Init` produce the
  full starting state.
-/

namespace StateCache

/-- Go: `type token string`. -/
abbrev Token := String

/-- Association-list read, mirroring `m[k]` with a presence check:
returns the value of the first pair whose key is `k`. -/
def mapLookup {β : Type} (k : String) : List (String × β) → Option β
  | [] => none
  | (a, b) :: rest => if a = k then some b else mapLookup k rest

/-- Association-list write, mirroring `m[k] = v`: replaces the first pair
whose key is `k`, or appends the pair when the key is absent. -/
def mapInsert {β : Type} (k : String) (v : β) : List (String × β) → List (String × β)
  | [] => [(k, v)]
  | (a, b) :: rest => if a = k then (k, v) :: rest else (a, b) :: mapInsert k v rest

/-- Association-list delete, mirroring `delete(m, k)`: removes the first
pair whose key is `k` (the lists built by `mapInsert` never hold a key
twice). -/
def mapErase {β : Type} (k : String) : List (String × β) → List (String × β)
  | [] => []
  | (a, b) :: rest => if a = k then rest else (a, b) :: mapErase k rest

/-- Two's-complement wrap into the `int8` range `[-128, 127]`. -/
def wrap8 (n : Int) : Int := (n + 128) % 256 - 128

/-- Go: `CacheMetrics` — four `int64` counters. -/
structure CacheMetrics where
  Hits : Int
  Misses : Int
  Evictions : Int
  InUseEvictions : Int
deriving Repr, DecidableEq

/-- Go: `SideInputCache` (the `sync.Mutex` field serialises operations and
has no other observable effect, so it is not part of the state). -/
structure SideInputCache (V : Type) where
  capacity : Int
  cache : List (Token × V)
  idsToTokens : List (String × Token)
  validTokens : List (Token × Int)
  metrics : CacheMetrics
deriving Repr, DecidableEq

/-- One entry of `fnpb.ProcessBundleRequest_CacheToken`: the `oneof` type
field (user state, or side input with its two IDs). -/
inductive CacheTokenType where
  | userState
  | sideInput (transformID sideInputID : String)
deriving Repr, DecidableEq

/-- Go: `fnpb.ProcessBundleRequest_CacheToken` (token bytes plus scope). -/
structure CacheToken where
  type : CacheTokenType
  token : Token
deriving Repr, DecidableEq

variable {V : Type}

/-- Go: `Init` — rejects non-positive capacities, otherwise installs fresh
maps and the capacity (metrics are the zero-value counters). -/
def Init (cap : Int) : Except String (SideInputCache V) :=
  if cap ≤ 0 then
    .error ("capacity must be a positive integer, got " ++ toString cap)
  else
    .ok { capacity := cap, cache := [], idsToTokens := [], validTokens := [],
          metrics := { Hits := 0, Misses := 0, Evictions := 0, InUseEvictions := 0 } }

/-- Go: `setValidToken` — maps `transformID + sideInputID` to the token and
bumps the token's `int8` validity count (starting it at 1 when absent). -/
def setValidToken (c : SideInputCache V) (transformID sideInputID : String)
    (tok : Token) : SideInputCache V :=
  let idKey := transformID ++ sideInputID
  match mapLookup tok c.validTokens with
  | none =>
      { c with idsToTokens := mapInsert idKey tok c.idsToTokens,
               validTokens := mapInsert tok 1 c.validTokens }
  | some count =>
      { c with idsToTokens := mapInsert idKey tok c.idsToTokens,
               validTokens := mapInsert tok (wrap8 (count + 1)) c.validTokens }

/-- The body of the `SetValidTokens` loop for one token: user-state tokens
are skipped, side-input tokens are registered. -/
def applyCacheToken (c : SideInputCache V) (tok : CacheToken) : SideInputCache V :=
  match tok.type with
  | .userState => c
  | .sideInput transformID sideInputID =>
      setValidToken c transformID sideInputID tok.token

/-- Go: `SetValidTokens` — registers each non-user-state token in order. -/
def SetValidTokens (c : SideInputCache V) (cacheTokens : List CacheToken) :
    SideInputCache V :=
  cacheTokens.foldl applyCacheToken c

/-- Go: `decrementTokenCount` — reads the count (zero value `0` when the
token is absent), deletes the entry when it is exactly 1, otherwise stores
the decremented `int8`. -/
def decrementTokenCount (c : SideInputCache V) (tok : Token) : SideInputCache V :=
  let count := (mapLookup tok c.validTokens).getD 0
  if count = 1 then
    { c with validTokens := mapErase tok c.validTokens }
  else
    { c with validTokens := mapInsert tok (wrap8 (count - 1)) c.validTokens }

/-- The body of the `CompleteBundle` loop for one token: user-state tokens
are skipped, side-input tokens are released (the IDs are unused). -/
def releaseCacheToken (c : SideInputCache V) (tok : CacheToken) : SideInputCache V :=
  match tok.type with
  | .userState => c
  | .sideInput _ _ => decrementTokenCount c tok.token

/-- Go: `CompleteBundle` — releases each non-user-state token in order. -/
def CompleteBundle (c : SideInputCache V) (cacheTokens : List CacheToken) :
    SideInputCache V :=
  cacheTokens.foldl releaseCacheToken c

/-- Go: `isValid` — the token is known and its count is positive. -/
def isValid (c : SideInputCache V) (tok : Token) : Bool :=
  match mapLookup tok c.validTokens with
  | none => false
  | some count => decide (0 < count)

/-- Go: `makeAndValidateToken` — resolves `transformID + sideInputID`;
`("", false)` when the identity key is unknown, otherwise the token paired
with its current validity. -/
def makeAndValidateToken (c : SideInputCache V) (transformID sideInputID : String) :
    Token × Bool :=
  let idKey := transformID ++ sideInputID
  match mapLookup idKey c.idsToTokens with
  | none => ("", false)
  | some tok => (tok, isValid c tok)

/-- Go: `QueryCache` — returns the new state plus the result (`none` is
Go's `nil` miss).  An unresolvable or invalid token returns early, before
the counters; only a resolved, valid token counts a miss or a hit. -/
def QueryCache (c : SideInputCache V) (transformID sideInputID : String) :
    SideInputCache V × Option V :=
  let tokOk := makeAndValidateToken c transformID sideInputID
  if !tokOk.2 then (c, none)
  else
    match mapLookup tokOk.1 c.cache with
    | none =>
        ({ c with metrics := { c.metrics with Misses := c.metrics.Misses + 1 } }, none)
    | some input =>
        ({ c with metrics := { c.metrics with Hits := c.metrics.Hits + 1 } }, some input)

/-- The first iteration of Go's `evictElement` loop: scan the entries in
order and delete the first one whose token fails `valid`; `none` when every
entry is valid. -/
def evictFirstInvalid (valid : Token → Bool) :
    List (Token × V) → Option (List (Token × V))
  | [] => none
  | p :: rest =>
      if valid p.1 then (evictFirstInvalid valid rest).map (p :: ·)
      else some rest

/-- Go: `evictElement` — delete the first invalid entry (an ordinary
eviction); when every cached token is valid, delete the first entry in
iteration order (an in-use eviction).  On an empty cache both loops run
zero iterations and nothing changes. -/
def evictElement (c : SideInputCache V) : SideInputCache V :=
  match evictFirstInvalid (fun k => isValid c k) c.cache with
  | some newCache =>
      { c with cache := newCache,
               metrics := { c.metrics with Evictions := c.metrics.Evictions + 1 } }
  | none =>
      match c.cache with
      | [] => c
      | _ :: rest =>
          { c with cache := rest,
                   metrics := { c.metrics with
                                InUseEvictions := c.metrics.InUseEvictions + 1 } }

/-- Go: `SetCache` — no-op unless the key resolves to a valid token; evicts
exactly once when the store is at or above capacity, then inserts. -/
def SetCache (c : SideInputCache V) (transformID sideInputID : String) (input : V) :
    SideInputCache V :=
  let tokOk := makeAndValidateToken c transformID sideInputID
  if !tokOk.2 then c
  else
    let c1 := if c.capacity ≤ (c.cache.length : Int) then evictElement c else c
    { c1 with cache := mapInsert tokOk.1 input c1.cache }

/-- One public mutation of the cache, for reasoning about sequences of
operations (a `queryCache` keeps the state, discarding the returned value). -/
inductive Op (V : Type) where
  | setValidTokens (cacheTokens : List CacheToken)
  | completeBundle (cacheTokens : List CacheToken)
  | queryCache (transformID sideInputID : String)
  | setCache (transformID sideInputID : String) (input : V)

/-- Apply one operation to the state. -/
def step (c : SideInputCache V) : Op V → SideInputCache V
  | .setValidTokens toks => SetValidTokens c toks
  | .completeBundle toks => CompleteBundle c toks
  | .queryCache transformID sideInputID => (QueryCache c transformID sideInputID).1
  | .setCache transformID sideInputID input => SetCache c transformID sideInputID input

/-- Apply a sequence of operations from left to right. -/
def run (c : SideInputCache V) (ops : List (Op V)) : SideInputCache V :=
  ops.foldl step c

/-- Whether an operation is a `QueryCache` call. -/
def isQuery : Op V → Bool
  | .queryCache _ _ => true
  | _ => false

/-- Total number of `QueryCache` calls in a sequence. -/
def countQueries (ops : List (Op V)) : Nat :=
  (ops.filter isQuery).length

/-- 1 when the operation is a `QueryCache` call whose identity key
resolves to a currently-valid token in state `c`, else 0. -/
def opResolvedQuery (c : SideInputCache V) : Op V → Nat
  | .queryCache s i => if (makeAndValidateToken c s i).2 then 1 else 0
  | _ => 0

/-- Number of `QueryCache` calls in a sequence whose identity key resolves
to a currently-valid token at the moment of the call. -/
def countResolvedQueries : SideInputCache V → List (Op V) → Nat
  | _, [] => 0
  | c, op :: rest => opResolvedQuery c op + countResolvedQueries (step c op) rest

/-- The token registry only holds `int8` counts that are positive (the
spec's validity invariant) and free of overflow. -/
def GoodCounts (c : SideInputCache V) : Prop :=
  ∀ p ∈ c.validTokens, 0 < p.2 ∧ p.2 ≤ 127

/-- The state left behind by one `QueryCache` call. -/
def queryStep (transformID sideInputID : String) (c : SideInputCache V) :
    SideInputCache V :=
  (QueryCache c transformID sideInputID).1

/-- The state after `n` repeated `QueryCache` calls for the same key. -/
def iterQuery (transformID sideInputID : String) :
    Nat → SideInputCache V → SideInputCache V
  | 0, c => c
  | n + 1, c => queryStep transformID sideInputID (iterQuery transformID sideInputID n c)

/-- The state produced by a successful `Init 1` (capacity one, all maps
empty, zero counters), used as the starting point of concrete runs. -/
def start1 : SideInputCache Nat :=
  { capacity := 1, cache := [], idsToTokens := [], validTokens := [],
    metrics := { Hits := 0, Misses := 0, Evictions := 0, InUseEvictions := 0 } }

/-- One `SetValidTokens` registration of token `"t"` for the identity key
`("s", "i")`. -/
def regOp : Op Nat :=
  .setValidTokens [{ type := .sideInput "s" "i", token := "t" }]

/-- Register `"t"` once, cache the value 42 under it, then register `"t"`
127 more times with no release: 128 registrations of the same token in
total. -/
def c10final : SideInputCache Nat :=
  run start1 (regOp :: Op.setCache "s" "i" 42 :: List.replicate 127 regOp)

/-- Register token `"t"` for the identity key `("a", "bc")` and cache 42
under it. -/
def c9state : SideInputCache Nat :=
  run start1 [Op.setValidTokens [{ type := .sideInput "a" "bc", token := "t" }],
              Op.setCache "a" "bc" 42]

/-- A reachable registry state in which token `"t2"` has been registered
127 times (count 127, the largest `int8`) while key `"ab"` is mapped to
`"t1"`. -/
def c7state : SideInputCache Nat :=
  { capacity := 2, cache := [], idsToTokens := [("ab", "t1")],
    validTokens := [("t1", 1), ("t2", 127)],
    metrics := { Hits := 0, Misses := 0, Evictions := 0, InUseEvictions := 0 } }

/-- A capacity-1 cache holding one entry for the valid token `"t"`, with
the identity key `("s", "i")` mapped to `"t"`: the next `SetCache` for
that key must evict. -/
def cFull : SideInputCache Nat :=
  { capacity := 1, cache := [("t0", 7)], idsToTokens := [("si", "t")],
    validTokens := [("t", 1)],
    metrics := { Hits := 0, Misses := 0, Evictions := 0, InUseEvictions := 0 } }

/-- A capacity-2 cache with the identity key `("s", "i")` mapped to the
valid token `"t"` and nothing cached yet. -/
def cReady : SideInputCache Nat :=
  { capacity := 2, cache := [], idsToTokens := [("si", "t")],
    validTokens := [("t", 1)],
    metrics := { Hits := 0, Misses := 0, Evictions := 0, InUseEvictions := 0 } }

end StateCache

namespace StateCache

variable {V : Type}

/-! ### Association-list lemmas -/

theorem mapLookup_mapInsert_self {β : Type} (k : String) (v : β) (m : List (String × β)) :
    mapLookup k (mapInsert k v m) = some v := by
  induction m with
  | nil => simp [mapInsert, mapLookup]
  | cons p rest ih =>
      obtain ⟨a, b⟩ := p
      by_cases h : a = k <;> simp [mapInsert, mapLookup, h, ih]

theorem mapLookup_mapInsert_ne {β : Type} {k k' : String} (v : β)
    (m : List (String × β)) (h : k' ≠ k) :
    mapLookup k' (mapInsert k v m) = mapLookup k' m := by
  have hk : ¬(k = k') := fun h2 => h h2.symm
  induction m with
  | nil => simp [mapInsert, mapLookup, hk]
  | cons p rest ih =>
      obtain ⟨a, b⟩ := p
      by_cases ha : a = k
      · have ha' : ¬(a = k') := fun h2 => hk (ha ▸ h2)
        simp [mapInsert, mapLookup, ha, ha', hk]
      · by_cases ha' : a = k' <;> simp [mapInsert, mapLookup, ha, ha', ih, h]

theorem mapLookup_mem {β : Type} {k : String} {v : β} {m : List (String × β)}
    (h : mapLookup k m = some v) : (k, v) ∈ m := by
  induction m with
  | nil => simp [mapLookup] at h
  | cons p rest ih =>
      obtain ⟨a, b⟩ := p
      by_cases ha : a = k
      · subst ha
        simp [mapLookup] at h
        simp [h]
      · simp [mapLookup, ha] at h
        exact List.mem_cons_of_mem _ (ih h)

theorem mem_mapInsert {β : Type} {p : String × β} {k : String} {v : β}
    {m : List (String × β)} (h : p ∈ mapInsert k v m) : p = (k, v) ∨ p ∈ m := by
  induction m with
  | nil => simpa [mapInsert] using h
  | cons q rest ih =>
      obtain ⟨a, b⟩ := q
      by_cases ha : a = k
      · simp [mapInsert, ha] at h
        rcases h with h | h
        · exact Or.inl h
        · exact Or.inr (List.mem_cons_of_mem _ h)
      · simp [mapInsert, ha] at h
        rcases h with h | h
        · exact Or.inr (by simp [h])
        · rcases ih h with h' | h'
          · exact Or.inl h'
          · exact Or.inr (List.mem_cons_of_mem _ h')

theorem mem_mapErase {β : Type} {p : String × β} {k : String}
    {m : List (String × β)} (h : p ∈ mapErase k m) : p ∈ m := by
  induction m with
  | nil => simpa [mapErase] using h
  | cons q rest ih =>
      obtain ⟨a, b⟩ := q
      by_cases ha : a = k
      · simp [mapErase, ha] at h
        exact List.mem_cons_of_mem _ h
      · simp [mapErase, ha] at h
        rcases h with h | h
        · simp [h]
        · exact List.mem_cons_of_mem _ (ih h)

theorem length_mapInsert_le {β : Type} (k : String) (v : β) (m : List (String × β)) :
    (mapInsert k v m).length ≤ m.length + 1 := by
  induction m with
  | nil => simp [mapInsert]
  | cons p rest ih =>
      obtain ⟨a, b⟩ := p
      by_cases ha : a = k <;> simp [mapInsert, ha] <;> omega

/-! ### Lemmas about `evictFirstInvalid` -/

theorem evictFirstInvalid_some_length {f : Token → Bool}
    {l l2 : List (Token × V)} (h : evictFirstInvalid f l = some l2) :
    l2.length + 1 = l.length := by
  induction l generalizing l2 with
  | nil => simp [evictFirstInvalid] at h
  | cons p rest ih =>
      by_cases hp : f p.1
      · simp [evictFirstInvalid, hp] at h
        obtain ⟨l', hl', rfl⟩ := h
        simpa using ih hl'
      · simp [evictFirstInvalid, hp] at h
        subst h
        simp

theorem evictFirstInvalid_none {f : Token → Bool} {l : List (Token × V)}
    (h : evictFirstInvalid f l = none) : ∀ p ∈ l, f p.1 = true := by
  induction l with
  | nil => simp
  | cons p rest ih =>
      by_cases hp : f p.1
      · simp [evictFirstInvalid, hp] at h
        intro q hq
        rcases List.mem_cons.mp hq with rfl | hq
        · exact hp
        · exact ih h q hq
      · simp [evictFirstInvalid, hp] at h

theorem evictFirstInvalid_of_all_valid {f : Token → Bool} {l : List (Token × V)}
    (h : ∀ p ∈ l, f p.1 = true) : evictFirstInvalid f l = none := by
  induction l with
  | nil => rfl
  | cons p rest ih =>
      have hp := h p (List.mem_cons_self _ _)
      simp [evictFirstInvalid, hp]
      exact ih fun q hq => h q (List.mem_cons_of_mem _ hq)

theorem evictFirstInvalid_some_decomp {f : Token → Bool}
    {l l2 : List (Token × V)} (h : evictFirstInvalid f l = some l2) :
    ∃ l1 p l3, l = l1 ++ p :: l3 ∧ f p.1 = false ∧
      (∀ q ∈ l1, f q.1 = true) ∧ l2 = l1 ++ l3 := by
  induction l generalizing l2 with
  | nil => simp [evictFirstInvalid] at h
  | cons p rest ih =>
      by_cases hp : f p.1
      · simp [evictFirstInvalid, hp] at h
        obtain ⟨l', hl', rfl⟩ := h
        obtain ⟨l1, q, l3, rfl, hq, hall, rfl⟩ := ih hl'
        exact ⟨p :: l1, q, l3, rfl, hq, by
          intro r hr
          rcases List.mem_cons.mp hr with rfl | hr
          · exact hp
          · exact hall r hr, rfl⟩
      · simp [evictFirstInvalid, hp] at h
        subst h
        exact ⟨[], p, rest, rfl, by simpa using hp, by simp, rfl⟩

/-! ### Which fields each operation leaves untouched -/

theorem setValidToken_fields (c : SideInputCache V) (s i : String) (t : Token) :
    (setValidToken c s i t).cache = c.cache ∧
    (setValidToken c s i t).metrics = c.metrics ∧
    (setValidToken c s i t).capacity = c.capacity := by
  cases h : mapLookup t c.validTokens <;> simp [setValidToken, h]

theorem applyCacheToken_fields (c : SideInputCache V) (tok : CacheToken) :
    (applyCacheToken c tok).cache = c.cache ∧
    (applyCacheToken c tok).metrics = c.metrics ∧
    (applyCacheToken c tok).capacity = c.capacity := by
  cases htype : tok.type with
  | userState => simp [applyCacheToken, htype]
  | sideInput s i =>
      simpa [applyCacheToken, htype] using setValidToken_fields c s i tok.token

theorem SetValidTokens_fields (toks : List CacheToken) (c : SideInputCache V) :
    (SetValidTokens c toks).cache = c.cache ∧
    (SetValidTokens c toks).metrics = c.metrics ∧
    (SetValidTokens c toks).capacity = c.capacity := by
  induction toks generalizing c with
  | nil => simp [SetValidTokens]
  | cons tok rest ih =>
      have h1 := applyCacheToken_fields c tok
      have h2 := ih (applyCacheToken c tok)
      simp only [SetValidTokens, List.foldl_cons] at h2 ⊢
      exact ⟨h2.1.trans h1.1, h2.2.1.trans h1.2.1, h2.2.2.trans h1.2.2⟩

theorem decrementTokenCount_fields (c : SideInputCache V) (t : Token) :
    (decrementTokenCount c t).cache = c.cache ∧
    (decrementTokenCount c t).metrics = c.metrics ∧
    (decrementTokenCount c t).capacity = c.capacity ∧
    (decrementTokenCount c t).idsToTokens = c.idsToTokens := by
  by_cases h : (mapLookup t c.validTokens).getD 0 = 1 <;>
    simp [decrementTokenCount, h]

theorem releaseCacheToken_fields (c : SideInputCache V) (tok : CacheToken) :
    (releaseCacheToken c tok).cache = c.cache ∧
    (releaseCacheToken c tok).metrics = c.metrics ∧
    (releaseCacheToken c tok).capacity = c.capacity := by
  cases htype : tok.type with
  | userState => simp [releaseCacheToken, htype]
  | sideInput s i =>
      have h := decrementTokenCount_fields c tok.token
      simpa [releaseCacheToken, htype] using ⟨h.1, h.2.1, h.2.2.1⟩

theorem CompleteBundle_fields (toks : List CacheToken) (c : SideInputCache V) :
    (CompleteBundle c toks).cache = c.cache ∧
    (CompleteBundle c toks).metrics = c.metrics ∧
    (CompleteBundle c toks).capacity = c.capacity := by
  induction toks generalizing c with
  | nil => simp [CompleteBundle]
  | cons tok rest ih =>
      have h1 := releaseCacheToken_fields c tok
      have h2 := ih (releaseCacheToken c tok)
      simp only [CompleteBundle, List.foldl_cons] at h2 ⊢
      exact ⟨h2.1.trans h1.1, h2.2.1.trans h1.2.1, h2.2.2.trans h1.2.2⟩

theorem evictElement_fields (c : SideInputCache V) :
    (evictElement c).idsToTokens = c.idsToTokens ∧
    (evictElement c).validTokens = c.validTokens ∧
    (evictElement c).capacity = c.capacity ∧
    (evictElement c).metrics.Hits = c.metrics.Hits ∧
    (evictElement c).metrics.Misses = c.metrics.Misses := by
  unfold evictElement
  split
  · simp
  · split <;> simp

theorem QueryCache_fields (c : SideInputCache V) (s i : String) :
    (QueryCache c s i).1.cache = c.cache ∧
    (QueryCache c s i).1.idsToTokens = c.idsToTokens ∧
    (QueryCache c s i).1.validTokens = c.validTokens ∧
    (QueryCache c s i).1.capacity = c.capacity ∧
    (QueryCache c s i).1.metrics.Evictions = c.metrics.Evictions ∧
    (QueryCache c s i).1.metrics.InUseEvictions = c.metrics.InUseEvictions := by
  by_cases hok : (makeAndValidateToken c s i).2 = true
  · cases hl : mapLookup (makeAndValidateToken c s i).1 c.cache <;>
      simp [QueryCache, hok, hl]
  · simp only [Bool.not_eq_true] at hok
    simp [QueryCache, hok]

theorem SetCache_fields (c : SideInputCache V) (s i : String) (v : V) :
    (SetCache c s i v).idsToTokens = c.idsToTokens ∧
    (SetCache c s i v).validTokens = c.validTokens ∧
    (SetCache c s i v).capacity = c.capacity ∧
    (SetCache c s i v).metrics.Hits = c.metrics.Hits ∧
    (SetCache c s i v).metrics.Misses = c.metrics.Misses := by
  by_cases hok : (makeAndValidateToken c s i).2 = true
  · by_cases hfull : c.capacity ≤ (c.cache.length : Int)
    · have h := evictElement_fields c
      simp [SetCache, hok, hfull]
      exact ⟨h.1, h.2.1, h.2.2.1, h.2.2.2.1, h.2.2.2.2⟩
    · simp [SetCache, hok, hfull]
  · simp only [Bool.not_eq_true] at hok
    simp [SetCache, hok]

/-! ### Claim theorems -/

/-- C8: `Init` fails exactly on non-positive capacities; a positive
capacity yields the empty store, empty identity-key map and empty token
registry with the capacity recorded (and zero-value counters). -/
theorem init_capacity_check (cap : Int) :
    (cap ≤ 0 → Init (V := V) cap =
      Except.error ("capacity must be a positive integer, got " ++ toString cap)) ∧
    (0 < cap → Init (V := V) cap =
      Except.ok { capacity := cap, cache := [], idsToTokens := [], validTokens := [],
                  metrics := { Hits := 0, Misses := 0, Evictions := 0,
                               InUseEvictions := 0 } }) := by
  constructor
  · intro h
    simp [Init, h]
  · intro h
    simp [Init, not_le.mpr h]

/-- Witness for `init_capacity_check` at capacities 0 and 3. -/
theorem init_capacity_check_witness :
    (0 : Int) ≤ 0 ∧
    Init (V := Nat) 0 =
      Except.error ("capacity must be a positive integer, got " ++ toString (0 : Int)) ∧
    (0 : Int) < 3 ∧
    Init (V := Nat) 3 =
      Except.ok { capacity := 3, cache := [], idsToTokens := [], validTokens := [],
                  metrics := { Hits := 0, Misses := 0, Evictions := 0,
                               InUseEvictions := 0 } } :=
  ⟨by norm_num, (init_capacity_check (V := Nat) 0).1 (by norm_num),
   by norm_num, (init_capacity_check (V := Nat) 3).2 (by norm_num)⟩

/-- C6: when the identity key does not resolve to a known, currently-valid
token (never registered, or registered but invalid), `QueryCache` is a
miss returning no value and `SetCache` returns the state unchanged — no
error, and store, registry and counters are untouched. -/
theorem unresolvable_key_is_noop (c : SideInputCache V) (s i : String) (v : V)
    (h : (makeAndValidateToken c s i).2 = false) :
    QueryCache c s i = (c, none) ∧ SetCache c s i v = c := by
  constructor <;> simp [QueryCache, SetCache, h]

/-- Witness for `unresolvable_key_is_noop` on the freshly initialised
state and a never-registered key. -/
theorem unresolvable_key_is_noop_witness :
    (makeAndValidateToken start1 "a" "b").2 = false ∧
    QueryCache start1 "a" "b" = (start1, none) ∧ SetCache start1 "a" "b" 5 = start1 :=
  ⟨by decide, unresolvable_key_is_noop start1 "a" "b" 5 (by decide)⟩

set_option maxRecDepth 100000 in
/-- C9: identity keys are the plain concatenation of the two IDs, so the
distinct pairs `("a", "bc")` and `("ab", "c")` share the key `"abc"`:
registering and caching under the first makes a query under the second
resolve to the very same token and return the same cache entry. -/
theorem identity_key_collision :
    (("a", "bc") : String × String) ≠ ("ab", "c") ∧
    ("a" : String) ++ "bc" = ("ab" : String) ++ "c" ∧
    makeAndValidateToken c9state "ab" "c" = ("t", true) ∧
    (QueryCache c9state "ab" "c").2 = some 42 := by
  refine ⟨by decide, by decide, by decide, by decide⟩

set_option maxRecDepth 1000000 in
/-- C10: validity counts are 8-bit signed integers with wrap-around: after
128 registrations of the token `"t"` (with a `SetCache` after the first
one and no release anywhere), its count is `-128`, `isValid` reports it
invalid, the query for its key misses, and `evictElement` removes its
cached entry as an ordinary (invalid-entry) eviction. -/
theorem int8_overflow_after_128_registrations :
    mapLookup "t" c10final.validTokens = some (-128) ∧
    isValid c10final "t" = false ∧
    mapLookup "t" c10final.cache = some 42 ∧
    (QueryCache c10final "s" "i").2 = none ∧
    (evictElement c10final).cache = [] ∧
    (evictElement c10final).metrics.Evictions = c10final.metrics.Evictions + 1 := by
  refine ⟨by decide, by decide, by decide, by decide, by decide, by decide⟩

set_option maxRecDepth 100000 in
/-- C3 counterexample: a `CompleteBundle` for a token that was never
registered reads the Go zero value 0, stores `0 - 1 = -1`, and leaves the
registry holding a token whose count is not positive. -/
theorem release_absent_token_corrupts_registry :
    (run start1 [Op.completeBundle [{ type := .sideInput "s" "i", token := "t" }]]).validTokens
      = [("t", -1)] ∧
    ¬(∀ p ∈ (run start1
        [Op.completeBundle [{ type := .sideInput "s" "i", token := "t" }]]).validTokens,
        0 < p.2) := by
  constructor
  · decide
  · decide

set_option maxRecDepth 100000 in
/-- C4 counterexample: a `QueryCache` call whose identity key is unknown
returns early and increments neither counter, so after one such call
`Hits + Misses = 0` while one query was issued. -/
theorem unresolved_query_counts_nothing :
    countQueries [Op.queryCache (V := Nat) "a" "b"] = 1 ∧
    (run start1 [Op.queryCache "a" "b"]).metrics.Hits +
      (run start1 [Op.queryCache "a" "b"]).metrics.Misses = 0 ∧
    ¬((run start1 [Op.queryCache "a" "b"]).metrics.Hits +
        (run start1 [Op.queryCache "a" "b"]).metrics.Misses
        = (countQueries [Op.queryCache (V := Nat) "a" "b"] : Int)) := by
  refine ⟨by decide, by decide, by decide⟩

/-- C7 counterexample: registering token `"t2"` when its count is already
127 (the largest `int8`) stores `-128`, not `127 + 1 = 128`. -/
theorem register_at_count_127_wraps :
    mapLookup "ab" c7state.idsToTokens = some "t1" ∧
    mapLookup "t2" c7state.validTokens = some 127 ∧
    mapLookup "t2" (setValidToken c7state "a" "b" "t2").validTokens = some (-128) ∧
    ¬(mapLookup "t2" (setValidToken c7state "a" "b" "t2").validTokens
        = some (127 + 1)) := by
  refine ⟨by decide, by decide, by decide, by decide⟩

/-- C7 (amended): registering `t2` for a key currently mapped to `t1 ≠ t2`
overwrites the mapping to `t2` and stores the `int8` wrap of `count + 1`
for `t2` (1 when absent; `count + 1` except that 127 wraps to −128), while
leaving `t1`'s count, every other token's count, every other identity-key
mapping, the store and the metrics unchanged. -/
theorem register_overwrite_frame (c : SideInputCache V) (s i : String) (t1 t2 : Token)
    (hmap : mapLookup (s ++ i) c.idsToTokens = some t1) (hne : t1 ≠ t2) :
    (setValidToken c s i t2).idsToTokens = mapInsert (s ++ i) t2 c.idsToTokens ∧
    mapLookup (s ++ i) (setValidToken c s i t2).idsToTokens = some t2 ∧
    (∀ k, k ≠ s ++ i →
      mapLookup k (setValidToken c s i t2).idsToTokens = mapLookup k c.idsToTokens) ∧
    mapLookup t2 (setValidToken c s i t2).validTokens
      = some (wrap8 ((mapLookup t2 c.validTokens).getD 0 + 1)) ∧
    mapLookup t1 (setValidToken c s i t2).validTokens = mapLookup t1 c.validTokens ∧
    (∀ t, t ≠ t2 →
      mapLookup t (setValidToken c s i t2).validTokens = mapLookup t c.validTokens) ∧
    (setValidToken c s i t2).cache = c.cache ∧
    (setValidToken c s i t2).metrics = c.metrics := by
  cases h : mapLookup t2 c.validTokens with
  | none =>
      have hst : setValidToken c s i t2 =
          { c with idsToTokens := mapInsert (s ++ i) t2 c.idsToTokens,
                   validTokens := mapInsert t2 1 c.validTokens } := by
        simp [setValidToken, h]
      rw [hst]
      refine ⟨rfl, mapLookup_mapInsert_self _ _ _,
        fun k hk => mapLookup_mapInsert_ne _ _ hk, ?_,
        mapLookup_mapInsert_ne _ _ hne,
        fun t ht => mapLookup_mapInsert_ne _ _ ht, rfl, rfl⟩
      rw [mapLookup_mapInsert_self]
      norm_num [wrap8]
  | some n =>
      have hst : setValidToken c s i t2 =
          { c with idsToTokens := mapInsert (s ++ i) t2 c.idsToTokens,
                   validTokens := mapInsert t2 (wrap8 (n + 1)) c.validTokens } := by
        simp [setValidToken, h]
      rw [hst]
      refine ⟨rfl, mapLookup_mapInsert_self _ _ _,
        fun k hk => mapLookup_mapInsert_ne _ _ hk, ?_,
        mapLookup_mapInsert_ne _ _ hne,
        fun t ht => mapLookup_mapInsert_ne _ _ ht, rfl, rfl⟩
      rw [mapLookup_mapInsert_self]
      simp

/-- Witness for `register_overwrite_frame`: registering `"t2"` over the
key `"ab"` currently mapped to `"t1"`. -/
theorem register_overwrite_frame_witness :
    mapLookup "ab" c7state.idsToTokens = some "t1" ∧ ("t1" : Token) ≠ "t2" ∧
    mapLookup "ab" (setValidToken c7state "a" "b" "t2").idsToTokens = some "t2" ∧
    mapLookup "t1" (setValidToken c7state "a" "b" "t2").validTokens
      = mapLookup "t1" c7state.validTokens ∧
    (setValidToken c7state "a" "b" "t2").cache = c7state.cache ∧
    (setValidToken c7state "a" "b" "t2").metrics = c7state.metrics := by
  have h := register_overwrite_frame c7state "a" "b" "t1" "t2" (by decide) (by decide)
  exact ⟨by decide, by decide, h.2.1, h.2.2.2.2.1, h.2.2.2.2.2.2.1, h.2.2.2.2.2.2.2⟩

theorem wrap8_eq_self {n : Int} (h1 : -128 ≤ n) (h2 : n ≤ 127) : wrap8 n = n := by
  unfold wrap8
  rw [Int.emod_eq_of_lt (by omega) (by omega)]
  omega

/-- C3 (amended): the registry invariant `0 < count ≤ 127` holds after
`Init` and is preserved by every operation, provided each registration of
a token happens while its count is below 127 (no `int8` overflow) and each
release is of a token actually present in the registry; `QueryCache` and
`SetCache` preserve it unconditionally. -/
theorem registry_counts_positive_guarded :
    (∀ (cap : Int) (c0 : SideInputCache V), Init cap = Except.ok c0 → GoodCounts c0) ∧
    (∀ (c : SideInputCache V) (s i : String) (t : Token), GoodCounts c →
       (∀ n, mapLookup t c.validTokens = some n → n < 127) →
       GoodCounts (setValidToken c s i t)) ∧
    (∀ (c : SideInputCache V) (t : Token), GoodCounts c →
       (mapLookup t c.validTokens).isSome = true →
       GoodCounts (decrementTokenCount c t)) ∧
    (∀ (c : SideInputCache V) (s i : String), GoodCounts c →
       GoodCounts (queryStep s i c)) ∧
    (∀ (c : SideInputCache V) (s i : String) (v : V), GoodCounts c →
       GoodCounts (SetCache c s i v)) := by
  refine ⟨?init, ?reg, ?rel, ?query, ?set⟩
  case init =>
    intro cap c0 h
    unfold Init at h
    split at h
    · simp at h
    · simp only [Except.ok.injEq] at h
      subst h
      intro p hp
      simp at hp
  case reg =>
    intro c s i t hg hlt
    cases h : mapLookup t c.validTokens with
    | none =>
        have hst : (setValidToken c s i t).validTokens = mapInsert t 1 c.validTokens := by
          simp [setValidToken, h]
        intro p hp
        rw [hst] at hp
        rcases mem_mapInsert hp with rfl | hp'
        · exact ⟨by norm_num, by norm_num⟩
        · exact hg p hp'
    | some n =>
        have hmem := hg _ (mapLookup_mem h)
        have hn : n < 127 := hlt n h
        have hw : wrap8 (n + 1) = n + 1 :=
          wrap8_eq_self (by omega) (by omega)
        have hst : (setValidToken c s i t).validTokens
            = mapInsert t (wrap8 (n + 1)) c.validTokens := by
          simp [setValidToken, h]
        intro p hp
        rw [hst] at hp
        rcases mem_mapInsert hp with rfl | hp'
        · refine ⟨?_, ?_⟩ <;> simp only [hw] <;> omega
        · exact hg p hp'
  case rel =>
    intro c t hg hsome
    obtain ⟨n, hn⟩ := Option.isSome_iff_exists.mp hsome
    have hmem := hg _ (mapLookup_mem hn)
    by_cases hn1 : n = 1
    · have hst : (decrementTokenCount c t).validTokens = mapErase t c.validTokens := by
        simp [decrementTokenCount, hn, hn1]
      intro p hp
      rw [hst] at hp
      exact hg p (mem_mapErase hp)
    · have hw : wrap8 (n - 1) = n - 1 :=
        wrap8_eq_self (by omega) (by omega)
      have hst : (decrementTokenCount c t).validTokens
          = mapInsert t (wrap8 (n - 1)) c.validTokens := by
        simp [decrementTokenCount, hn, hn1]
      intro p hp
      rw [hst] at hp
      rcases mem_mapInsert hp with rfl | hp'
      · refine ⟨?_, ?_⟩ <;> simp only [hw] <;> omega
      · exact hg p hp'
  case query =>
    intro c s i hg p hp
    rw [show (queryStep s i c).validTokens = c.validTokens from
      (QueryCache_fields c s i).2.2.1] at hp
    exact hg p hp
  case set =>
    intro c s i v hg p hp
    rw [(SetCache_fields c s i v).2.1] at hp
    exact hg p hp

/-- Witness for `registry_counts_positive_guarded`: a guarded registration
and a guarded release both preserve the invariant on a concrete state. -/
theorem registry_counts_positive_guarded_witness :
    GoodCounts (setValidToken cReady "x" "y" "t") ∧
    GoodCounts (decrementTokenCount cReady "t") := by
  have h := registry_counts_positive_guarded (V := Nat)
  refine ⟨h.2.1 cReady "x" "y" "t" ?g1 ?g2, h.2.2.1 cReady "t" ?g3 ?g4⟩
  case g1 =>
    intro p hp
    simp [cReady] at hp
    subst hp
    norm_num
  case g2 =>
    intro n hn
    simp [cReady, mapLookup] at hn
    omega
  case g3 =>
    intro p hp
    simp [cReady] at hp
    subst hp
    norm_num
  case g4 => decide

theorem step_hits_misses (c : SideInputCache V) (op : Op V) :
    (step c op).metrics.Hits + (step c op).metrics.Misses
      = c.metrics.Hits + c.metrics.Misses + (opResolvedQuery c op : Int) := by
  cases op with
  | setValidTokens toks =>
      have h := (SetValidTokens_fields toks c).2.1
      simp [step, h, opResolvedQuery]
  | completeBundle toks =>
      have h := (CompleteBundle_fields toks c).2.1
      simp [step, h, opResolvedQuery]
  | queryCache s i =>
      by_cases hok : (makeAndValidateToken c s i).2 = true
      · cases hl : mapLookup (makeAndValidateToken c s i).1 c.cache <;>
          simp [step, QueryCache, hok, hl, opResolvedQuery] <;> ring
      · simp only [Bool.not_eq_true] at hok
        simp [step, QueryCache, hok, opResolvedQuery]
  | setCache s i v =>
      have h := SetCache_fields c s i v
      simp [step, h.2.2.2.1, h.2.2.2.2, opResolvedQuery]

/-- C4 (amended): over any operation sequence, `Hits + Misses` grows by
exactly the number of `QueryCache` calls whose identity key resolved to a
currently-valid token at the moment of the call; queries with an unknown
or invalid token touch neither counter. -/
theorem hits_plus_misses_eq_resolved_queries (c0 : SideInputCache V)
    (ops : List (Op V)) :
    (run c0 ops).metrics.Hits + (run c0 ops).metrics.Misses
      = c0.metrics.Hits + c0.metrics.Misses + (countResolvedQueries c0 ops : Int) := by
  induction ops generalizing c0 with
  | nil => simp [run, countResolvedQueries]
  | cons op rest ih =>
      have h1 := step_hits_misses c0 op
      have h2 := ih (step c0 op)
      simp only [run, List.foldl_cons, countResolvedQueries] at h2 ⊢
      rw [h2, h1]
      push_cast
      ring

theorem queryCache_hit (c : SideInputCache V) (s i : String) (t : Token) (v : V)
    (hmap : mapLookup (s ++ i) c.idsToTokens = some t)
    (hval : isValid c t = true)
    (hcache : mapLookup t c.cache = some v) :
    QueryCache c s i =
      ({ c with metrics := { c.metrics with Hits := c.metrics.Hits + 1 } }, some v) := by
  have hm : makeAndValidateToken c s i = (t, true) := by
    simp [makeAndValidateToken, hmap, hval]
  simp [QueryCache, hm, hcache]

theorem iterQuery_invariant (d0 : SideInputCache V) (s i : String) (t : Token) (v : V)
    (hids : mapLookup (s ++ i) d0.idsToTokens = some t)
    (hval : isValid d0 t = true)
    (hcache : mapLookup t d0.cache = some v) (n : Nat) :
    (iterQuery s i n d0).cache = d0.cache ∧
    (iterQuery s i n d0).idsToTokens = d0.idsToTokens ∧
    (iterQuery s i n d0).validTokens = d0.validTokens ∧
    (iterQuery s i n d0).metrics.Hits = d0.metrics.Hits + n ∧
    (iterQuery s i n d0).metrics.Misses = d0.metrics.Misses := by
  induction n with
  | zero => simp [iterQuery]
  | succ n ih =>
      obtain ⟨h1, h2, h3, h4, h5⟩ := ih
      have hvaln : isValid (iterQuery s i n d0) t = true := by
        unfold isValid at hval ⊢
        rw [h3]
        exact hval
      have hq := queryCache_hit (iterQuery s i n d0) s i t v
        (by rw [h2]; exact hids) hvaln (by rw [h1]; exact hcache)
      have hiter : iterQuery s i (n + 1) d0 = queryStep s i (iterQuery s i n d0) := rfl
      rw [hiter]
      unfold queryStep
      rw [hq]
      refine ⟨h1, h2, h3, ?_, h5⟩
      simp only [h4]
      push_cast
      ring

/-- C5: after `SetCache` under a registered, currently-valid token, every
run of repeated `QueryCache` calls for the same identity key (with no
intervening release, `SetCache` or eviction) returns exactly the cached
value each time, increments `Hits` by one per call, leaves `Misses` alone,
and never changes the store contents or the registry. -/
theorem valid_cached_query_always_hits (c : SideInputCache V) (s i : String)
    (t : Token) (v : V)
    (hmap : mapLookup (s ++ i) c.idsToTokens = some t)
    (hval : isValid c t = true) (n : Nat) :
    (QueryCache (iterQuery s i n (SetCache c s i v)) s i).2 = some v ∧
    (iterQuery s i n (SetCache c s i v)).cache = (SetCache c s i v).cache ∧
    (iterQuery s i n (SetCache c s i v)).idsToTokens = c.idsToTokens ∧
    (iterQuery s i n (SetCache c s i v)).validTokens = c.validTokens ∧
    (iterQuery s i n (SetCache c s i v)).metrics.Hits
      = (SetCache c s i v).metrics.Hits + n ∧
    (iterQuery s i n (SetCache c s i v)).metrics.Misses
      = (SetCache c s i v).metrics.Misses := by
  have hm : makeAndValidateToken c s i = (t, true) := by
    simp [makeAndValidateToken, hmap, hval]
  have hfields := SetCache_fields c s i v
  have hd0ids : mapLookup (s ++ i) (SetCache c s i v).idsToTokens = some t := by
    rw [hfields.1]
    exact hmap
  have hd0val : isValid (SetCache c s i v) t = true := by
    unfold isValid at hval ⊢
    rw [hfields.2.1]
    exact hval
  have hd0cache : mapLookup t (SetCache c s i v).cache = some v := by
    by_cases hfull : c.capacity ≤ (c.cache.length : Int) <;>
      simp [SetCache, hm, hfull, mapLookup_mapInsert_self]
  obtain ⟨h1, h2, h3, h4, h5⟩ :=
    iterQuery_invariant (SetCache c s i v) s i t v hd0ids hd0val hd0cache n
  have hvaln : isValid (iterQuery s i n (SetCache c s i v)) t = true := by
    unfold isValid at hd0val ⊢
    rw [h3]
    exact hd0val
  have hq := queryCache_hit (iterQuery s i n (SetCache c s i v)) s i t v
    (by rw [h2]; exact hd0ids) hvaln (by rw [h1]; exact hd0cache)
  refine ⟨by rw [hq], h1, h2.trans hfields.1, h3.trans hfields.2.1, h4, h5⟩

/-- Witness for `valid_cached_query_always_hits`: two repeated queries
after caching 9 under the valid token `"t"`. -/
theorem valid_cached_query_always_hits_witness :
    mapLookup ("s" ++ "i") cReady.idsToTokens = some "t" ∧
    isValid cReady "t" = true ∧
    (QueryCache (iterQuery "s" "i" 2 (SetCache cReady "s" "i" 9)) "s" "i").2 = some 9 ∧
    (iterQuery "s" "i" 2 (SetCache cReady "s" "i" 9)).metrics.Hits
      = (SetCache cReady "s" "i" 9).metrics.Hits + ((2 : Nat) : Int) := by
  have h := valid_cached_query_always_hits cReady "s" "i" "t" 9 (by decide) (by decide) 2
  exact ⟨by decide, by decide, h.1, h.2.2.2.2.1⟩

theorem step_capacity (c : SideInputCache V) (op : Op V) :
    (step c op).capacity = c.capacity := by
  cases op with
  | setValidTokens toks => exact (SetValidTokens_fields toks c).2.2
  | completeBundle toks => exact (CompleteBundle_fields toks c).2.2
  | queryCache s i => exact (QueryCache_fields c s i).2.2.2.1
  | setCache s i v => exact (SetCache_fields c s i v).2.2.1

theorem evictElement_length (c : SideInputCache V) (h : c.cache ≠ []) :
    (evictElement c).cache.length + 1 = c.cache.length := by
  unfold evictElement
  cases hf : evictFirstInvalid (fun k => isValid c k) c.cache with
  | some l2 => simpa using evictFirstInvalid_some_length hf
  | none =>
      cases hc : c.cache with
      | nil => exact absurd hc h
      | cons p rest => simp

theorem step_size (c : SideInputCache V) (op : Op V) (hcap : 1 ≤ c.capacity)
    (hsz : (c.cache.length : Int) ≤ c.capacity) :
    ((step c op).cache.length : Int) ≤ c.capacity := by
  cases op with
  | setValidTokens toks => rw [show (step c (Op.setValidTokens toks)).cache = c.cache from
      (SetValidTokens_fields toks c).1]; exact hsz
  | completeBundle toks => rw [show (step c (Op.completeBundle toks)).cache = c.cache from
      (CompleteBundle_fields toks c).1]; exact hsz
  | queryCache s i => rw [show (step c (Op.queryCache s i)).cache = c.cache from
      (QueryCache_fields c s i).1]; exact hsz
  | setCache s i v =>
      by_cases hok : (makeAndValidateToken c s i).2 = true
      · by_cases hfull : c.capacity ≤ (c.cache.length : Int)
        · have hne : c.cache ≠ [] := by
            intro h0
            rw [h0] at hfull
            simp at hfull
            omega
          have hlen := evictElement_length c hne
          have hins := length_mapInsert_le (makeAndValidateToken c s i).1 v
            (evictElement c).cache
          have hclen : (step c (Op.setCache s i v)).cache
              = mapInsert (makeAndValidateToken c s i).1 v (evictElement c).cache := by
            simp [step, SetCache, hok, hfull]
          rw [hclen]
          omega
        · have hins := length_mapInsert_le (makeAndValidateToken c s i).1 v c.cache
          have hclen : (step c (Op.setCache s i v)).cache
              = mapInsert (makeAndValidateToken c s i).1 v c.cache := by
            simp [step, SetCache, hok, hfull]
          rw [hclen]
          omega
      · simp only [Bool.not_eq_true] at hok
        have hst : step c (Op.setCache s i v) = c := by
          simp [step, SetCache, hok]
        rw [hst]
        exact hsz

theorem run_size_aux (cap : Int) (ops : List (Op V)) :
    ∀ c : SideInputCache V, c.capacity = cap → 1 ≤ cap →
      ((c.cache.length : Int) ≤ cap) → ((run c ops).cache.length : Int) ≤ cap := by
  induction ops with
  | nil =>
      intro c _ _ h3
      simpa [run] using h3
  | cons op rest ih =>
      intro c h1 h2 h3
      have hstep := step_size c op (by omega) (by omega)
      have hrun : run c (op :: rest) = run (step c op) rest := by
        simp [run]
      rw [hrun]
      exact ih (step c op) ((step_capacity c op).trans h1) h2 (by omega)

/-- C2: after a successful `Init` with capacity `cap`, the cache store
holds at most `cap` entries after every sequence of operations (hence
after every prefix, i.e. after every individual operation). -/
theorem store_size_le_capacity (cap : Int) (c0 : SideInputCache V)
    (ops : List (Op V)) (h : Init cap = Except.ok c0) :
    ((run c0 ops).cache.length : Int) ≤ cap := by
  have hfacts : 1 ≤ cap ∧ c0.capacity = cap ∧ c0.cache = [] := by
    unfold Init at h
    split at h
    · simp at h
    · next hcond =>
        simp only [Except.ok.injEq] at h
        subst h
        exact ⟨by omega, rfl, rfl⟩
  exact run_size_aux cap ops c0 hfacts.2.1 hfacts.1 (by
    rw [hfacts.2.2]
    simp
    omega)

/-- Witness for `store_size_le_capacity`: a capacity-1 run with two
inserts under the same key stays within the bound. -/
theorem store_size_le_capacity_witness :
    Init (V := Nat) 1 = Except.ok start1 ∧
    (((run start1 [regOp, Op.setCache "s" "i" 42,
        Op.setCache "s" "i" 43]).cache.length : Int) ≤ 1) := by
  have hinit : Init (V := Nat) 1 = Except.ok start1 := rfl
  exact ⟨hinit, store_size_le_capacity 1 start1 _ hinit⟩

/-- C1: a `SetCache` with a resolvable, valid identity key on a store at
(or above) capacity removes exactly one entry before the insert: the first
invalid entry in scan order when one exists (counted in `Evictions`),
otherwise an arbitrary entry (the first in scan order, counted in
`InUseEvictions`); and no operation other than such a `SetCache` ever
changes either eviction counter. -/
theorem setCache_evicts_exactly_one (c : SideInputCache V) (s i : String) (v : V)
    (hok : (makeAndValidateToken c s i).2 = true)
    (hcap : 1 ≤ c.capacity)
    (hfull : c.capacity ≤ (c.cache.length : Int)) :
    SetCache c s i v =
      { evictElement c with
        cache := mapInsert (makeAndValidateToken c s i).1 v (evictElement c).cache } ∧
    (evictElement c).cache.length + 1 = c.cache.length ∧
    ((∃ p ∈ c.cache, isValid c p.1 = false) →
       (∃ l1 p l2, c.cache = l1 ++ p :: l2 ∧ isValid c p.1 = false ∧
          (∀ q ∈ l1, isValid c q.1 = true) ∧ (evictElement c).cache = l1 ++ l2) ∧
       (SetCache c s i v).metrics.Evictions = c.metrics.Evictions + 1 ∧
       (SetCache c s i v).metrics.InUseEvictions = c.metrics.InUseEvictions) ∧
    ((∀ p ∈ c.cache, isValid c p.1 = true) →
       (evictElement c).cache = c.cache.tail ∧
       (SetCache c s i v).metrics.InUseEvictions = c.metrics.InUseEvictions + 1 ∧
       (SetCache c s i v).metrics.Evictions = c.metrics.Evictions) ∧
    (∀ (d : SideInputCache V) (op : Op V),
       ((step d op).metrics.Evictions ≠ d.metrics.Evictions ∨
        (step d op).metrics.InUseEvictions ≠ d.metrics.InUseEvictions) →
       ∃ s2 i2 v2, op = Op.setCache s2 i2 v2 ∧
         (makeAndValidateToken d s2 i2).2 = true ∧
         d.capacity ≤ (d.cache.length : Int)) := by
  have hne : c.cache ≠ [] := by
    intro h0
    rw [h0] at hfull
    simp at hfull
    omega
  have heq : SetCache c s i v =
      { evictElement c with
        cache := mapInsert (makeAndValidateToken c s i).1 v (evictElement c).cache } := by
    simp [SetCache, hok, hfull]
  have hmetr : (SetCache c s i v).metrics = (evictElement c).metrics := by
    rw [heq]
  refine ⟨heq, evictElement_length c hne, ?invalid, ?inuse, ?nopath⟩
  case invalid =>
    rintro ⟨p, hp, hpinv⟩
    cases hf : evictFirstInvalid (fun k => isValid c k) c.cache with
    | none =>
        have := evictFirstInvalid_none hf p hp
        rw [hpinv] at this
        cases this
    | some l2 =>
        have hdec := evictFirstInvalid_some_decomp hf
        have hev : evictElement c =
            { c with cache := l2,
                     metrics := { c.metrics with
                                  Evictions := c.metrics.Evictions + 1 } } := by
          simp [evictElement, hf]
        obtain ⟨l1, q, l3, hsplit, hqinv, hallv, hl2⟩ := hdec
        refine ⟨⟨l1, q, l3, hsplit, by simpa using hqinv, hallv, by rw [hev, hl2]⟩,
          ?_, ?_⟩ <;> rw [hmetr, hev]
  case inuse =>
    intro hall
    have hf : evictFirstInvalid (fun k => isValid c k) c.cache = none :=
      evictFirstInvalid_of_all_valid hall
    cases hc : c.cache with
    | nil => exact absurd hc hne
    | cons p rest =>
        have hev : evictElement c =
            { c with cache := rest,
                     metrics := { c.metrics with
                                  InUseEvictions := c.metrics.InUseEvictions + 1 } } := by
          unfold evictElement
          rw [hf, hc]
        refine ⟨?_, ?_, ?_⟩
        · rw [hev]
          rfl
        · rw [hmetr, hev]
        · rw [hmetr, hev]
  case nopath =>
    intro d op hch
    cases op with
    | setValidTokens toks =>
        exfalso
        have h := (SetValidTokens_fields toks d).2.1
        rcases hch with h1 | h1 <;> exact h1 (by simp [step, h])
    | completeBundle toks =>
        exfalso
        have h := (CompleteBundle_fields toks d).2.1
        rcases hch with h1 | h1 <;> exact h1 (by simp [step, h])
    | queryCache s2 i2 =>
        exfalso
        have h := QueryCache_fields d s2 i2
        rcases hch with h1 | h1
        · exact h1 (by simpa [step] using h.2.2.2.2.1)
        · exact h1 (by simpa [step] using h.2.2.2.2.2)
    | setCache s2 i2 v2 =>
        by_cases hok2 : (makeAndValidateToken d s2 i2).2 = true
        · by_cases hfull2 : d.capacity ≤ (d.cache.length : Int)
          · exact ⟨s2, i2, v2, rfl, hok2, hfull2⟩
          · exfalso
            have hm : (step d (Op.setCache s2 i2 v2)).metrics = d.metrics := by
              simp [step, SetCache, hok2, hfull2]
            rcases hch with h1 | h1 <;> exact h1 (by rw [hm])
        · exfalso
          simp only [Bool.not_eq_true] at hok2
          have hm : step d (Op.setCache s2 i2 v2) = d := by
            simp [step, SetCache, hok2]
          rcases hch with h1 | h1 <;> exact h1 (by rw [hm])

/-- Witness for `setCache_evicts_exactly_one`: a capacity-1 store holding
one valid entry receives a second insert, firing the in-use eviction. -/
theorem setCache_evicts_exactly_one_witness :
    (makeAndValidateToken cFull "s" "i").2 = true ∧
    (1 : Int) ≤ cFull.capacity ∧
    cFull.capacity ≤ (cFull.cache.length : Int) ∧
    (evictElement cFull).cache.length + 1 = cFull.cache.length := by
  have h := setCache_evicts_exactly_one cFull "s" "i" 5 (by decide) (by decide) (by decide)
  exact ⟨by decide, by decide, by decide, h.2.1⟩

end StateCache
